import Mathlib

/-!
Verification of the django-mongom2m relationship-manager core
(`django_mongom2m/manager.py`, `django_mongom2m/query.py`,
`django_mongom2m/utils.py`) via a shallow embedding in Lean.

Modeling conventions:
* `OID` models `bson.ObjectId`; a Python string holding a formatted object
  id is modeled as `Value.strId` carrying the id it denotes (so the
  `ObjectId(string)` round trip is the identity on the carried id, and an
  arbitrary non-id string raises, modeled as `Option.none`).
* Python dicts keyed by strings are association lists with first-match
  lookup and insert-or-replace update, preserving insertion order exactly
  as CPython dicts do.
* Raised exceptions are `Option.none` (or an explicit `Except` where the
  distinction between exception kinds matters).
* A Django model instance of the target type is `TDoc`: its attribute
  dictionary; `_meta` data (primary-key field, field list) is `Meta`.
* `ObjectId(None)` in pymongo mints a fresh random id; that
  non-deterministic corner is outside the modeled domain and represented
  as failure (`none`).  All theorems stay inside the modeled domain.
-/

namespace MongoM2M

/-- ObjectId, the canonical identifier type. -/
abbrev OID := Nat

/-- Field values stored in documents / embedded dicts.  `strId o` is a
string that is the decimal/hex rendering of object id `o`; `str` is any
other string; `null` is Python `None`. -/
inductive Value where
  | oid (o : OID)
  | strId (o : OID)
  | str (s : String)
  | null
deriving DecidableEq, Repr

/-- `ObjectId(v)`: identity on ObjectIds, parse for id-strings, raise
(`none`) for other strings and for `None`. -/
def objectIdOf : Value → Option OID
  | .oid o => some o
  | .strId o => some o
  | .str _ => none
  | .null => none

/-- `str(pk)` coercion applied by the source when a model pk is an
ObjectId ("Make sure the pk is a string"): ObjectId becomes its string
form, anything else is untouched. -/
def strCoerce : Value → Value
  | .oid o => .strId o
  | v => v

/-- One Django field's metadata: `attname` (python attribute name) and
`column` (storage column name). -/
structure FieldDef where
  attname : String
  column : String
deriving DecidableEq, Repr

/-- The `_meta` of the target model: its primary-key field plus the full
field list (which, in Django, includes the pk). -/
structure Meta where
  pkField : FieldDef
  fields : List FieldDef
deriving DecidableEq, Repr

/-- A target model instance: its attribute dictionary (attname -> value). -/
structure TDoc where
  attrs : List (String × Value)
deriving DecidableEq, Repr

/-- First-match lookup in an association list (Python `d[k]` / `k in d`). -/
def lookupKV {α : Type} (l : List (String × α)) (k : String) : Option α :=
  (l.find? (fun p => p.1 == k)).map (fun p => p.2)

/-- Python dict insert-or-replace, preserving insertion order. -/
def updKV (l : List (String × Value)) (k : String) (v : Value) :
    List (String × Value) :=
  if l.any (fun p => p.1 == k) then
    l.map (fun p => if p.1 == k then (k, v) else p)
  else
    l ++ [(k, v)]

/-- `instance.pk`: read the pk attribute, `None` when absent. -/
def tdocPk (meta : Meta) (d : TDoc) : Value :=
  (lookupKV d.attrs meta.pkField.attname).getD Value.null

/-- Reference Cell: the `{'pk': ..., 'obj': ...}` dicts held in
`MongoDBM2MRelatedManager.objects`.  `obj = none` means not yet loaded. -/
structure Cell where
  pk : OID
  obj : Option TDoc
deriving DecidableEq, Repr

/-- A stored element of the relationship list column, i.e. one
`embedded_instance` argument of `to_python_embedded_instance`
(manager.py:333-406).  `tup` carries the `(model class, values)`
construction pair; `valuesIsTuple` records whether `values` arrived as a
tuple of pairs (django-toolbox variants) rather than a dict, which
changes the Python `'id' in values` membership test.  `model` is the
"assume it's already a model" fallback for unrecognized shapes. -/
inductive Stored where
  | oid (o : OID)
  | strId (o : OID)
  | tup (cls : Meta) (values : List (String × Value)) (valuesIsTuple : Bool)
  | map (m : List (String × Value))
  | model (d : TDoc)
deriving DecidableEq, Repr

/-- The `data` dict built in the embed branch of the dict case of
`to_python_embedded_instance`: for each target field, copy
`embedded_instance[field.column]` under key `field.attname`, skipping
missing columns (`except KeyError: pass`). -/
def collectData (meta : Meta) (m : List (String × Value)) :
    List (String × Value) :=
  meta.fields.foldl
    (fun acc f =>
      match lookupKV m f.column with
      | some v => updKV acc f.attname v
      | none => acc)
    []

/-- The in-place `obj.pk = str(obj.pk)` coercion on a freshly constructed
instance's attribute dict. -/
def coercePkAttrs (meta : Meta) (attrs : List (String × Value)) :
    List (String × Value) :=
  attrs.map (fun p =>
    if p.1 == meta.pkField.attname then (p.1, strCoerce p.2) else p)

/-- The dict branch of `to_python_embedded_instance`
(manager.py:364-406): when embedding, rebuild a model instance from the
recognized columns unless only the id was stored; when not embedding,
extract the id from the pk column.  `none` models a raised KeyError /
invalid ObjectId. -/
def decodeMap (embed : Bool) (meta : Meta) (m : List (String × Value)) :
    Option Cell :=
  if embed then
    let data := collectData meta m
    if data.length ≤ 1 then
      -- "If we only got the id, give up" - id-only cell
      (lookupKV m meta.pkField.column).bind (fun v =>
        (objectIdOf v).map (fun o => { pk := o, obj := none }))
    else
      let attrs := coercePkAttrs meta data
      (lookupKV attrs meta.pkField.attname).bind (fun pv =>
        (objectIdOf pv).map (fun o =>
          { pk := o, obj := some { attrs := attrs } }))
  else
    (lookupKV m meta.pkField.column).bind (fun v =>
      (objectIdOf v).map (fun o => { pk := o, obj := none }))

/-- `MongoDBM2MRelatedManager.to_python_embedded_instance`
(manager.py:333-406).  `embed` is the relationship's embed flag, `meta`
is `self.rel.to._meta`.  The tuple case's recursive call with
`{"id": ObjectId(values['id'])}` immediately lands in the dict case, so
it is inlined as `decodeMap`. -/
def toPythonEmbeddedInstance (embed : Bool) (meta : Meta) :
    Stored → Option Cell
  | .oid o => some { pk := o, obj := none }
  | .strId o => some { pk := o, obj := none }
  | .tup cls values valuesIsTuple =>
    -- `'id' in values` on a tuple of pairs checks elements, not keys,
    -- and is false for well-formed pair tuples.
    if values.length == 1 && !valuesIsTuple &&
        (lookupKV values "id").isSome && decide (1 < cls.fields.length) then
      (lookupKV values "id").bind (fun v =>
        (objectIdOf v).bind (fun o =>
          decodeMap embed meta [("id", Value.oid o)]))
    else
      -- instance = cls(**values); {'pk': ObjectId(instance.pk), 'obj': instance}
      (lookupKV values cls.pkField.attname).bind (fun pv =>
        (objectIdOf pv).map (fun o =>
          { pk := o, obj := some { attrs := values } }))
  | .map m => decodeMap embed meta m
  | .model d =>
    if embed then
      let d2 : TDoc := { attrs := coercePkAttrs meta d.attrs }
      (objectIdOf (tdocPk meta d2)).map (fun o =>
        { pk := o, obj := some d2 })
    else
      (objectIdOf (tdocPk meta d)).map (fun o => { pk := o, obj := none })

/-- The document collection holding the target model instances
(`rel.to.objects`), keyed by primary key. -/
abbrev DB := List (OID × TDoc)

/-- `rel.to.objects.get(pk=...)` as a total lookup: `none` is
`DoesNotExist`. -/
def dbGet (db : DB) (pk : OID) : Option TDoc :=
  (db.find? (fun p => p.1 == pk)).map (fun p => p.2)

/-! ## Encode-for-storage (manager.py:419-448) -/

/-- The embedded field map built by
`get_db_prep_value_embedded_instance` when embedding: one entry per
target-model field.  The Python dict is keyed by the field object; its
column is the stable name, used as key here.  `pre_save`/
`get_db_prep_save` are framework hooks modeled as the plain attribute
read (missing attribute reads as `None`). -/
def embedFields (meta : Meta) (d : TDoc) : Stored :=
  .map (meta.fields.map (fun f =>
    (f.column, (lookupKV d.attrs f.attname).getD Value.null)))

/-- The object a cell is serialized from: the cached instance if present,
otherwise a fresh `get(pk=...)` (which raises, `none`, when the target
was deleted). -/
def resolveForStore (db : DB) (c : Cell) : Option TDoc :=
  match c.obj with
  | some d => some d
  | none => dbGet db c.pk

/-- `MongoDBM2MRelatedManager.get_db_prep_value_embedded_instance`
(manager.py:419-440): without embedding, store `{pk_column: pk}`; with
embedding, store the full field map of the cached-or-freshly-loaded
target instance. -/
def getDbPrepValueEmbeddedInstance (embed : Bool) (meta : Meta) (db : DB)
    (c : Cell) : Option Stored :=
  if !embed then
    some (.map [(meta.pkField.column, Value.oid c.pk)])
  else
    (resolveForStore db c).map (fun d => embedFields meta d)

/-- `MongoDBM2MRelatedManager.get_db_prep_value` (manager.py:442-448). -/
def getDbPrepValue (embed : Bool) (meta : Meta) (db : DB)
    (objects : List Cell) : Option (List Stored) :=
  objects.mapM (getDbPrepValueEmbeddedInstance embed meta db)

/-! ## Manager mutation operations and `m2m_changed` signals
(manager.py:94-253) -/

/-- An argument to `add`/`remove`: a real model instance, an ObjectId or
a string representing one. -/
inductive MItem where
  | ref (o : OID)
  | strRef (o : OID)
  | doc (d : TDoc)
deriving DecidableEq, Repr

/-- Resolve one argument to `(pk, instance)` as the loops in `add` and
`remove` do: `ObjectId(obj)` for raw ids, `ObjectId(obj.pk)` for model
instances. -/
def itemPkObj (meta : Meta) : MItem → Option (OID × Option TDoc)
  | .ref o => some (o, none)
  | .strRef o => some (o, none)
  | .doc d => (objectIdOf (tdocPk meta d)).map (fun o => (o, some d))

/-- The `action` strings passed to `m2m_changed.send`. -/
inductive SigAction where
  | preAdd | postAdd | preRemove | postRemove | preClear | postClear
deriving DecidableEq, Repr

/-- One `m2m_changed.send(...)` call: the action, the `pk_set` payload
(identifier strings, modeled by the ids they denote), and - for stating
the bracketing property - the manager's cell list at the moment the
signal is dispatched. -/
structure SigEvent where
  action : SigAction
  pkSet : List OID
  objectsAtSend : List Cell
deriving DecidableEq, Repr

/-- `MongoDBM2MRelatedManager.add` (manager.py:94-144): collect the
arguments whose pk is not yet in `self.objects` (the membership test
looks only at `self.objects`, never at the batch built so far), send
`pre_add`, append, send `post_add`.  Returns the new cell list and the
signal trace; `none` models a raised coercion error. -/
def addOp (meta : Meta) (st : List Cell) (items : List MItem) :
    Option (List Cell × List SigEvent) :=
  (items.mapM (itemPkObj meta)).map (fun resolved =>
    let addObjs := resolved.filter
      (fun p => decide (p.1 ∉ st.map Cell.pk))
    let addIds := addObjs.map (fun p => p.1)
    let st2 := st ++ addObjs.map (fun p => { pk := p.1, obj := p.2 })
    (st2, [{ action := .preAdd, pkSet := addIds, objectsAtSend := st },
           { action := .postAdd, pkSet := addIds, objectsAtSend := st2 }]))

/-- `MongoDBM2MRelatedManager._remove_by_id_strings` (manager.py:157-172):
send `pre_remove`, drop the cells whose pk string is in the list, send
`post_remove`. -/
def removeByIdStrings (st : List Cell) (removedIds : List OID) :
    List Cell × List SigEvent :=
  let st2 := st.filter (fun c => decide (c.pk ∉ removedIds))
  (st2, [{ action := .preRemove, pkSet := removedIds, objectsAtSend := st },
         { action := .postRemove, pkSet := removedIds, objectsAtSend := st2 }])

/-- `MongoDBM2MRelatedManager.remove` (manager.py:175-195): resolve the
arguments to a pk set, compute the subset of cells actually present (in
cell order) and delegate to `_remove_by_id_strings`. -/
def removeOp (meta : Meta) (st : List Cell) (items : List MItem) :
    Option (List Cell × List SigEvent) :=
  (items.mapM (itemPkObj meta)).map (fun resolved =>
    let objIds := resolved.map (fun p => p.1)
    let removedIds := (st.filter (fun c => decide (c.pk ∈ objIds))).map Cell.pk
    removeByIdStrings st removedIds)

/-- `MongoDBM2MRelatedManager.clear` (manager.py:229-253): `pk_set` is
every current id, the mutation replaces the list with `[]`. -/
def clearOp (st : List Cell) : List Cell × List SigEvent :=
  let removedIds := st.map Cell.pk
  ([], [{ action := .preClear, pkSet := removedIds, objectsAtSend := st },
        { action := .postClear, pkSet := removedIds, objectsAtSend := [] }])

/-- `MongoDBM2MRelatedManager.count` (manager.py:91-92). -/
def managerCount (objects : List Cell) : Nat := objects.length

/-- A sequence of `add` calls starting from a given cell list (ignoring
the signal traces). -/
def addCalls (meta : Meta) (st : List Cell) :
    List (List MItem) → Option (List Cell)
  | [] => some st
  | c :: rest =>
    match addOp meta st c with
    | none => none
    | some (st2, _) => addCalls meta st2 rest

/-! ## Query-Set Emulator (query.py:15-173) -/

/-- `MongoDBM2MQuerySet` state: the copied cell list plus the
constructor flags that matter to its behavior (`use_cached`,
`appear_as_relationship` presence is handled separately for the through
shim, `exists_in_db_only`). -/
structure QSet where
  objects : List Cell
  useCached : Bool
  existsOnly : Bool
deriving DecidableEq, Repr

/-- `MongoDBM2MQuerySet.__init__` (query.py:22-47): copy the cell list;
when `use_cached` is false reset every cell to identifier-only; when
`exists_in_db_only`, keep only cells whose id still exists in the target
collection (`get_exists_ids`). -/
def initQSet (db : DB) (objects : List Cell) (useCached : Bool)
    (existsOnly : Bool) : QSet :=
  let objs1 := if useCached then objects
               else objects.map (fun c => { pk := c.pk, obj := none })
  let objs2 := if existsOnly then
                 objs1.filter (fun c => (dbGet db c.pk).isSome)
               else objs1
  { objects := objs2, useCached := useCached, existsOnly := existsOnly }

/-- `MongoDBM2MRelatedManager.all` (manager.py:273-280) without the
through-row mode: build a query set over the manager's cells. -/
def managerAll (db : DB) (objects : List Cell) (useCached : Bool) : QSet :=
  initQSet db objects useCached false

/-- The resolution step of `MongoDBM2MQuerySet._get_obj`
(query.py:50-57): load the referred instance on cache miss, swallowing
`DoesNotExist` (the cell keeps `obj = None`). -/
def resolveCell (db : DB) (c : Cell) : Cell :=
  match c.obj with
  | some _ => c
  | none => { pk := c.pk, obj := dbGet db c.pk }

/-- `MongoDBM2MQuerySet.__iter__` (query.py:74-79) outside through-row
mode: resolve each cell, yield the loaded objects, skip unresolvable
cells. -/
def qsIter (db : DB) (qs : QSet) : List TDoc :=
  qs.objects.filterMap (fun c => (resolveCell db c).obj)

/-- `MongoDBM2MQuerySet.__len__` (query.py:96-97). -/
def qsLen (qs : QSet) : Nat := qs.objects.length

/-- `MongoDBM2MQuerySet.count` (query.py:124-125). -/
def qsCount (qs : QSet) : Nat := qs.objects.length

/-- `MongoDBM2MQuerySet._clone` (query.py:127-149): construct a fresh
query set from the receiver's (copied) cell list and flags; the
constructor re-applies the `use_cached` reset and the existence
filter. -/
def qsClone (db : DB) (qs : QSet) : QSet :=
  initQSet db qs.objects qs.useCached qs.existsOnly

/-- `MongoDBM2MQuerySet.filter` (query.py:103-113): ask the target
collection which held ids satisfy the predicate, narrow `self.objects`
in place to those ids, then return `self._clone()`.  The result pair is
`(the receiver after the call, the returned query set)`; the predicate
abstracts the `filter(*args, **kwargs)` condition. -/
def qsFilter (db : DB) (pred : TDoc → Bool) (qs : QSet) : QSet × QSet :=
  let held := qs.objects.map Cell.pk
  let pks := (db.filter (fun p => decide (p.1 ∈ held) && pred p.2)).map
    (fun p => p.1)
  let selfAfter : QSet :=
    { qs with objects := qs.objects.filter (fun c => decide (c.pk ∈ pks)) }
  (selfAfter, qsClone db selfAfter)

/-- `MongoDBM2MQuerySet.get` (query.py:116-122) outside through-row
mode: linear scan for the first matching pk; `none` when absent. -/
def qsGet (db : DB) (qs : QSet) (pk : OID) : Option TDoc :=
  (qs.objects.find? (fun c => c.pk == pk)).bind
    (fun c => (resolveCell db c).obj)

/-! ## Relationship-table emulator (utils.py:23-79, query.py:50-72) -/

/-- A host-model instance: its primary key plus the relationship field's
cell list (the state its bound related manager holds). -/
structure HostDoc where
  pk : OID
  cells : List Cell
deriving DecidableEq, Repr

/-- `model.objects.get(pk=...)` on the host collection. -/
def hostGet (hosts : List HostDoc) (pk : OID) : Option HostDoc :=
  hosts.find? (fun h => h.pk == pk)

/-- A synthetic relationship row built by `_get_obj` in
`appear_as_relationship` mode (query.py:58-71).  `fwd l r` has composite
pk `"<l>$f$<r>"`, `rev l r` has composite pk `"<l>$r$<r>"`; the host /
target attributes hold what the wrapper's kwargs held. -/
inductive ThroughRow where
  | fwd (tokLeft : OID) (tokRight : OID) (host : HostDoc)
      (target : Option TDoc)
  | rev (tokLeft : OID) (tokRight : OID) (host : Option HostDoc)
      (target : TDoc)
deriving DecidableEq, Repr

/-- The framework errors a real single-object fetch can raise. -/
inductive GetErr where
  | doesNotExist
deriving DecidableEq, Repr

/-- `ThroughQuerySet.get` (utils.py:53-73) on a composite token
`"<tokLeft>$<dir>$<tokRight>"`, modeled with the split already applied to
its three components.  Forward: fetch the host (the framework's own
`get`, raising `DoesNotExist` when absent), then linear-scan its cells;
a miss returns `None`.  Reverse: fetch the target, collect the hosts
whose cell list references it (the reverse accessor's raw query), then
linear-scan those for the host id. -/
def throughGet (hosts : List HostDoc) (db : DB) (tokLeft : OID)
    (dir : String) (tokRight : OID) : Except GetErr (Option ThroughRow) :=
  let modelId := if dir == "r" then tokRight else tokLeft
  let toId := if dir == "r" then tokLeft else tokRight
  if dir == "r" then
    match dbGet db toId with
    | none => .error .doesNotExist
    | some toDoc =>
      let objs := hosts.filter (fun h => decide (toId ∈ h.cells.map Cell.pk))
      match objs.find? (fun h => h.pk == modelId) with
      | none => .ok none
      | some h => .ok (some (.rev toId h.pk (some h) toDoc))
  else
    match hostGet hosts modelId with
    | none => .error .doesNotExist
    | some h =>
      match h.cells.find? (fun c => c.pk == toId) with
      | none => .ok none
      | some c => .ok (some (.fwd h.pk c.pk h (resolveCell db c).obj))

/-! ## Query-predicate translator (utils.py:120-182, manager.py:488-600) -/

/-- A value appearing in a host-level filter predicate. -/
inductive PVal where
  | oid (o : OID)
  | strId (o : OID)
  | doc (pk : OID)
  | null
  | other (s : String)
deriving DecidableEq, Repr

/-- Either a plain predicate value or an `A(op, val)` object of
django-mongodb-engine. -/
inductive AArg where
  | val (v : PVal)
  | a (op : String) (v : PVal)
deriving DecidableEq, Repr

/-- `combine_A` (utils.py:164-182): rewrite `pk`/`id` comparisons onto
the stored `id` key, unwrap model instances to their id, coerce raw /
string ids with `ObjectId(...)` (raising, `none`, on anything else), and
fold a nested `A` into a dotted field path.  The result is the `A`
object as an `(op, val)` pair. -/
def combineA (field : String) (value : AArg) : Option AArg :=
  let step : Option (String × AArg) :=
    if field == "pk" || field == "id" then
      match value with
      | .val (.doc pk) => some ("id", .val (.oid pk))
      | .val (.strId o) => some ("id", .val (.oid o))
      | .val (.oid o) => some ("id", .val (.oid o))
      | .val .null => some ("id", .val .null)
      | .val (.other _) => none
      | .a _ _ => none
    else
      some (field, value)
  step.map (fun p =>
    match p.2 with
    | .a op w => .a (p.1 ++ "." ++ op) w
    | .val w => .a p.1 w)

/-- A Django `Q` predicate tree: `cond` is a `(field, value)` leaf child,
`node` is a `Q` object with its ordered children. -/
inductive QExpr where
  | cond (field : String) (value : AArg)
  | node (children : List QExpr)
deriving Repr

/-- `replace_Q` (utils.py:120-161) over a children list: a leaf whose
field misses `allowed` makes the call return `False` immediately with
that leaf removed and the remaining children untouched; an allowed leaf
is replaced by `(column, combine_A(...))`; a nested `Q` child is
rewritten recursively with its returned status ignored.  `none` models a
raised coercion error. -/
def replaceQList (column : String) (allowed : Option (List String)) :
    List QExpr → Option (Bool × List QExpr)
  | [] => some (true, [])
  | QExpr.node cs :: rest => do
    let inner ← replaceQList column allowed cs
    let r ← replaceQList column allowed rest
    some (r.1, QExpr.node inner.2 :: r.2)
  | QExpr.cond f v :: rest =>
    if (allowed.map (fun fs => decide (f ∈ fs))).getD true then do
      let newv ← combineA f v
      let r ← replaceQList column allowed rest
      some (r.1, QExpr.cond column newv :: r.2)
    else
      some (false, rest)

/-- `replace_Q` on a `Q` object (a `node`). -/
def replaceQ (column : String) (allowed : Option (List String))
    (q : QExpr) : Option (Bool × QExpr) :=
  match q with
  | .node cs => (replaceQList column allowed cs).map
      (fun r => (r.1, QExpr.node r.2))
  | .cond _ _ => none

/-- A positional argument of `_filter_or_exclude`: a `Q` object or a
bare `(field, value)` pair. -/
inductive FArg where
  | q (t : QExpr)
  | tup (field : String) (value : AArg)
deriving Repr

/-- An entry of the rewritten `query_args` list: `qArg` is a (rewritten)
`Q` object - kwargs are wrapped as single-child `Q`s - and `pair` is the
`(column, A(...))` tuple built for bare pair arguments. -/
inductive OutArg where
  | qArg (t : QExpr)
  | pair (column : String) (value : AArg)
deriving Repr

/-- The `MongoDBM2MQueryError` raised by `raise_query_error`
(manager.py:530-538), carrying the offending `(args, kwargs)`. -/
structure QueryErr where
  args : List FArg
  kwargs : List (String × AArg)
deriving Repr

/-- The positional-argument loop of `_filter_or_exclude`
(manager.py:543-558): `Q` arguments go through `replace_Q` (with only
`pk` allowed when not embedded) and a `False` status raises the query
error; bare pairs are rewritten unconditionally. -/
def processArgs (embedded : Bool) (column : String) (err : QueryErr) :
    List FArg → Option (Except QueryErr (List OutArg))
  | [] => some (.ok [])
  | .q t :: rest =>
    match replaceQ column (if embedded then none else some ["pk"]) t with
    | none => none
    | some (status, t2) =>
      if status then
        (processArgs embedded column err rest).map
          (fun r => r.map (fun l => OutArg.qArg t2 :: l))
      else
        some (.error err)
  | .tup f v :: rest =>
    match combineA f v with
    | none => none
    | some av =>
      (processArgs embedded column err rest).map
        (fun r => r.map (fun l => OutArg.pair column av :: l))

/-- The keyword-argument loop of `_filter_or_exclude`
(manager.py:560-568): any non-`pk` keyword on a non-embedded field
raises; otherwise the pair becomes `Q(**{column: combine_A(...)})`. -/
def processKwargs (embedded : Bool) (column : String) (err : QueryErr) :
    List (String × AArg) → Option (Except QueryErr (List OutArg))
  | [] => some (.ok [])
  | (f, v) :: rest =>
    if !embedded && f != "pk" then
      some (.error err)
    else
      match combineA f v with
      | none => none
      | some av =>
        (processKwargs embedded column err rest).map
          (fun r => r.map
            (fun l => OutArg.qArg (QExpr.node [QExpr.cond column av]) :: l))

/-- `MongoDBManyToManyRelationDescriptor._filter_or_exclude`
(manager.py:488-574): rewrite all arguments and hand
`(negate, query_args)` to the host model's filter/exclude.  `.error`
is the raised `MongoDBM2MQueryError`; outer `none` is any other raised
exception (bad `ObjectId`, non-`Q` input to `replace_Q`). -/
def filterOrExclude (embedded : Bool) (column : String) (negate : Bool)
    (args : List FArg) (kwargs : List (String × AArg)) :
    Option (Except QueryErr (Bool × List OutArg)) :=
  let err : QueryErr := { args := args, kwargs := kwargs }
  match processArgs embedded column err args with
  | none => none
  | some (.error e) => some (.error e)
  | some (.ok updatedArgs) =>
    match processKwargs embedded column err kwargs with
    | none => none
    | some (.error e) => some (.error e)
    | some (.ok updatedKwargs) =>
      some (.ok (negate, updatedArgs ++ updatedKwargs))

/-! ## Concrete fixtures used by witnesses and counterexamples -/

/-- A target model with pk column `id` and one extra field `name`, the
shape of the test app's `Category`/`Tag` models. -/
def metaA : Meta := { pkField := ⟨"id", "id"⟩,
                      fields := [⟨"id", "id"⟩, ⟨"name", "name"⟩] }

/-- A concrete target document with id 1. -/
def dX : TDoc := { attrs := [("id", .strId 1), ("name", .str "X")] }

/-- A concrete target document with id 2. -/
def dY : TDoc := { attrs := [("id", .strId 2), ("name", .str "Y")] }

/-! ## Helper lemmas -/

theorem updKV_length_le (l : List (String × Value)) (k : String) (v : Value) :
    (updKV l k v).length ≤ l.length + 1 := by
  unfold updKV
  split
  · simp
  · simp

theorem collectData_length_le (meta : Meta) (m : List (String × Value)) :
    (collectData meta m).length ≤
      meta.fields.countP (fun f => (lookupKV m f.column).isSome) := by
  have h : ∀ (fs : List FieldDef) (acc : List (String × Value)),
      (fs.foldl (fun acc f =>
        match lookupKV m f.column with
        | some v => updKV acc f.attname v
        | none => acc) acc).length ≤
        acc.length + fs.countP (fun f => (lookupKV m f.column).isSome) := by
    intro fs
    induction fs with
    | nil => intro acc; simp
    | cons f fs ih =>
      intro acc
      rw [List.foldl_cons, List.countP_cons]
      cases hf : lookupKV m f.column with
      | none =>
        have := ih acc
        simp only [hf] at this ⊢
        simp only [Option.isSome_none]
        omega
      | some v =>
        have h1 := ih (updKV acc f.attname v)
        have h2 := updKV_length_le acc f.attname v
        simp [hf] at h1 ⊢
        omega
  simpa [collectData] using h meta.fields []

theorem lookupKV_singleton (k c : String) (v : Value) :
    lookupKV [(k, v)] c = if k == c then some v else none := by
  cases h : (k == c) with
  | true => simp [lookupKV, List.find?, h]
  | false => simp [lookupKV, List.find?, h]

/-! ## Claim C1 -/

/-- Claim C1 (amended): decode-from-storage accepts the four stored
shapes - bare identifier, string identifier, construction tuple, raw
field-map - and (given the shape carries the identifier it needs)
normalizes each into a Reference Cell without raising; a field-map
holding only the primary-key column and a construction tuple holding
only an `id` entry (target type with more than one field) both become
identifier-only cells; a value of any other shape is assumed to be an
already-materialized model instance, reduced to an identifier-only cell
when embedding is disabled but kept as the cell's cached object when
embedding is enabled. -/
theorem C1_decode_shapes (embed : Bool) (meta : Meta) :
    (∀ o : OID, toPythonEmbeddedInstance embed meta (.oid o) =
        some { pk := o, obj := none }) ∧
    (∀ o : OID, toPythonEmbeddedInstance embed meta (.strId o) =
        some { pk := o, obj := none }) ∧
    (∀ v o, objectIdOf v = some o →
      meta.fields.countP (fun f => meta.pkField.column == f.column) ≤ 1 →
      toPythonEmbeddedInstance embed meta (.map [(meta.pkField.column, v)]) =
        some { pk := o, obj := none }) ∧
    (∀ cls v o, objectIdOf v = some o → 1 < cls.fields.length →
      meta.pkField.column = "id" →
      meta.fields.countP (fun f => meta.pkField.column == f.column) ≤ 1 →
      toPythonEmbeddedInstance embed meta (.tup cls [("id", v)] false) =
        some { pk := o, obj := none }) ∧
    (∀ cls values isTup pv o,
      (values.length == 1 && !isTup && (lookupKV values "id").isSome &&
        decide (1 < cls.fields.length)) = false →
      lookupKV values cls.pkField.attname = some pv → objectIdOf pv = some o →
      toPythonEmbeddedInstance embed meta (.tup cls values isTup) =
        some { pk := o, obj := some { attrs := values } }) ∧
    (∀ m pv o, 2 ≤ (collectData meta m).length →
      lookupKV (coercePkAttrs meta (collectData meta m))
          meta.pkField.attname = some pv →
      objectIdOf pv = some o →
      toPythonEmbeddedInstance true meta (.map m) =
        some { pk := o,
               obj := some { attrs := coercePkAttrs meta (collectData meta m) } }) ∧
    (∀ d o, objectIdOf (tdocPk meta d) = some o →
      toPythonEmbeddedInstance false meta (.model d) =
        some { pk := o, obj := none }) ∧
    (∀ d o,
      objectIdOf (tdocPk meta { attrs := coercePkAttrs meta d.attrs }) = some o →
      toPythonEmbeddedInstance true meta (.model d) =
        some { pk := o, obj := some { attrs := coercePkAttrs meta d.attrs } }) := by
  have hmap : ∀ v o, objectIdOf v = some o →
      meta.fields.countP (fun f => meta.pkField.column == f.column) ≤ 1 →
      decodeMap embed meta [(meta.pkField.column, v)] =
        some { pk := o, obj := none } := by
    intro v o hv hcount
    have hdata : (collectData meta [(meta.pkField.column, v)]).length ≤ 1 := by
      refine le_trans (collectData_length_le meta _) ?_
      have : meta.fields.countP
          (fun f => (lookupKV [(meta.pkField.column, v)] f.column).isSome) =
          meta.fields.countP (fun f => meta.pkField.column == f.column) := by
        refine List.countP_congr ?_
        intro f _
        rw [lookupKV_singleton]
        cases h : (meta.pkField.column == f.column) <;> simp [h]
      omega
    unfold decodeMap
    cases embed with
    | false => simp [lookupKV_singleton, hv]
    | true => simp [hdata, lookupKV_singleton, hv]
  refine ⟨fun o => rfl, fun o => rfl, ?_, ?_, ?_, ?_, ?_, ?_⟩
  · intro v o hv hcount
    simpa [toPythonEmbeddedInstance] using hmap v o hv hcount
  · intro cls v o hv hlen hpk hcount
    have hguard : ((List.length [(("id", v))] == 1) && !false &&
        (lookupKV [("id", v)] "id").isSome && decide (1 < cls.fields.length))
        = true := by
      simp [lookupKV_singleton, hlen]
    have h2 := hmap (Value.oid o) o rfl hcount
    rw [hpk] at h2
    rw [toPythonEmbeddedInstance, if_pos hguard]
    simpa [lookupKV_singleton, hv] using h2
  · intro cls values isTup pv o hguard hpv hv
    rw [toPythonEmbeddedInstance, if_neg (by simp [hguard]), hpv]
    simp [hv]
  · intro m pv o hlen hpv hv
    have hnle : ¬ (collectData meta m).length ≤ 1 := by omega
    simp [toPythonEmbeddedInstance, decodeMap, hnle, hpv, hv]
  · intro d o hd
    rw [toPythonEmbeddedInstance, hd]
    rfl
  · intro d o hd
    simp [toPythonEmbeddedInstance, hd]

/-- Claim C1 witness: the amended statement applied at concrete inputs
(pk-only field-map and id-only construction tuple, target type with two
fields). -/
theorem C1_witness :
    toPythonEmbeddedInstance false metaA (.map [("id", Value.strId 7)]) =
      some { pk := 7, obj := none } ∧
    toPythonEmbeddedInstance true metaA (.tup metaA [("id", Value.strId 7)] false) =
      some { pk := 7, obj := none } :=
  ⟨(C1_decode_shapes false metaA).2.2.1 (Value.strId 7) 7 rfl (by decide),
   (C1_decode_shapes true metaA).2.2.2.1 metaA (Value.strId 7) 7 rfl
     (by decide) rfl (by decide)⟩

/-- Claim C1 counterexample: with embedding enabled, a value of none of
the four shapes (decoded through the "assume it's already a model"
fallback) is kept as a cached-object cell, not treated as
identifier-only. -/
theorem C1_counterexample :
    toPythonEmbeddedInstance true ⟨⟨"id", "id"⟩, [⟨"id", "id"⟩]⟩
        (.model { attrs := [("id", Value.strId 5)] }) =
      some { pk := 5, obj := some { attrs := [("id", Value.strId 5)] } } ∧
    (some { pk := 5, obj := some { attrs := [("id", Value.strId 5)] } } :
        Option Cell) ≠ some { pk := 5, obj := none } := by
  exact ⟨rfl, by decide⟩

/-! ## Claim C2 -/

/-- Claim C2: every `add`, `remove` or `clear` call fires exactly one
pre-event and one post-event, both carrying the same `pk_set`; the
pre-event is dispatched while the cell list still holds its pre-mutation
state and the post-event after the mutation is applied. -/
theorem C2_signal_bracket :
    (∀ (meta : Meta) (st : List Cell) (items : List MItem)
        (out : List Cell × List SigEvent),
      addOp meta st items = some out →
      ∃ ids, out.2 = [{ action := .preAdd, pkSet := ids, objectsAtSend := st },
                      { action := .postAdd, pkSet := ids,
                        objectsAtSend := out.1 }]) ∧
    (∀ (meta : Meta) (st : List Cell) (items : List MItem)
        (out : List Cell × List SigEvent),
      removeOp meta st items = some out →
      ∃ ids, out.2 = [{ action := .preRemove, pkSet := ids,
                        objectsAtSend := st },
                      { action := .postRemove, pkSet := ids,
                        objectsAtSend := out.1 }]) ∧
    (∀ st : List Cell,
      ∃ ids, (clearOp st).2 =
        [{ action := .preClear, pkSet := ids, objectsAtSend := st },
         { action := .postClear, pkSet := ids,
           objectsAtSend := (clearOp st).1 }]) := by
  refine ⟨?_, ?_, ?_⟩
  · intro meta st items out h
    obtain ⟨r, _, hf⟩ := Option.map_eq_some'.mp h
    subst hf
    exact ⟨_, rfl⟩
  · intro meta st items out h
    obtain ⟨r, _, hf⟩ := Option.map_eq_some'.mp h
    subst hf
    exact ⟨_, rfl⟩
  · intro st
    exact ⟨_, rfl⟩

/-- Claim C2 witness: the bracket shape at a concrete `add` call. -/
theorem C2_witness :
    ∃ ids,
      (([{ pk := 1, obj := none }],
        [{ action := .preAdd, pkSet := [1], objectsAtSend := [] },
         { action := .postAdd, pkSet := [1],
           objectsAtSend := [{ pk := 1, obj := none }] }]) :
        List Cell × List SigEvent).2 =
      [{ action := .preAdd, pkSet := ids, objectsAtSend := [] },
       { action := .postAdd, pkSet := ids,
         objectsAtSend := [{ pk := 1, obj := none }] }] :=
  C2_signal_bracket.1 metaA [] [MItem.ref 1] _ rfl

/-! ## Claim C3 -/

/-- The resolved identifier list of one `add`/`remove` call's arguments. -/
def callIds (meta : Meta) (c : List MItem) : Option (List OID) :=
  (c.mapM (itemPkObj meta)).map (fun r => r.map (fun p => p.1))

theorem addOp_eq_of_mapM (meta : Meta) (st : List Cell) (c : List MItem)
    (r : List (OID × Option TDoc)) (h : c.mapM (itemPkObj meta) = some r) :
    addOp meta st c = some
      (st ++ (r.filter (fun p => decide (p.1 ∉ st.map Cell.pk))).map
          (fun p => { pk := p.1, obj := p.2 }),
       [{ action := .preAdd,
          pkSet := (r.filter (fun p => decide (p.1 ∉ st.map Cell.pk))).map
            (fun p => p.1),
          objectsAtSend := st },
        { action := .postAdd,
          pkSet := (r.filter (fun p => decide (p.1 ∉ st.map Cell.pk))).map
            (fun p => p.1),
          objectsAtSend := st ++
            (r.filter (fun p => decide (p.1 ∉ st.map Cell.pk))).map
              (fun p => { pk := p.1, obj := p.2 }) }]) := by
  unfold addOp
  rw [h]
  rfl

theorem pks_of_addOp_state (st : List Cell) (r : List (OID × Option TDoc)) :
    (st ++ (r.filter (fun p => decide (p.1 ∉ st.map Cell.pk))).map
      (fun p => ({ pk := p.1, obj := p.2 } : Cell))).map Cell.pk =
    st.map Cell.pk ++
      (r.map (fun p => p.1)).filter
        (fun o => decide (o ∉ st.map Cell.pk)) := by
  rw [List.map_append, List.map_map, List.filter_map]
  rfl

theorem addCalls_invariant (meta : Meta) :
    ∀ (calls : List (List MItem)) (idss : List (List OID)) (st : List Cell),
      List.Forall₂ (fun c ids => callIds meta c = some ids ∧ ids.Nodup)
        calls idss →
      (st.map Cell.pk).Nodup →
      ∃ fin, addCalls meta st calls = some fin ∧ (fin.map Cell.pk).Nodup ∧
        ∀ o, o ∈ fin.map Cell.pk ↔
          (o ∈ st.map Cell.pk ∨ o ∈ idss.flatten) := by
  intro calls
  induction calls with
  | nil =>
    intro idss st h hst
    cases h
    exact ⟨st, rfl, hst, by simp [addCalls]⟩
  | cons c rest ih =>
    intro idss st h hst
    cases h with
    | cons hc hrest =>
      obtain ⟨hcall, hnodup⟩ := hc
      obtain ⟨r, hr, hids⟩ := Option.map_eq_some'.mp hcall
      have hadd := addOp_eq_of_mapM meta st c r hr
      have hstep : addCalls meta st (c :: rest) =
          addCalls meta
            (st ++ (r.filter (fun p => decide (p.1 ∉ st.map Cell.pk))).map
              (fun p => { pk := p.1, obj := p.2 })) rest := by
        rw [addCalls, hadd]
      have hpks := pks_of_addOp_state st r
      have hnodup2 : ((st ++ (r.filter
          (fun p => decide (p.1 ∉ st.map Cell.pk))).map
            (fun p => ({ pk := p.1, obj := p.2 } : Cell))).map Cell.pk).Nodup := by
        rw [hpks]
        refine List.Nodup.append hst ?_ ?_
        · rw [hids]
          exact hnodup.filter _
        · intro a ha hb
          rw [List.mem_filter] at hb
          simp only [decide_eq_true_eq] at hb
          exact hb.2 ha
      obtain ⟨fin, h1, h2, h3⟩ := ih _ _ hrest hnodup2
      refine ⟨fin, by rw [hstep]; exact h1, h2, ?_⟩
      intro o
      rw [h3 o, hpks]
      simp only [List.mem_append, List.mem_filter, List.flatten_cons,
        hids, decide_eq_true_eq]
      by_cases hmem : o ∈ st.map Cell.pk <;> simp [hmem]

/-- Claim C3 counterexample: a single `add` call that repeats an
identifier appends it twice - the membership test only consults
`self.objects`, never the batch built within the call - so the cell
count (2) exceeds the number of distinct identifiers ever added (1) and
cell identifiers are no longer unique. -/
theorem C3_counterexample :
    (addOp metaA [] [MItem.ref 1, MItem.ref 1]).map
        (fun out => out.1.map Cell.pk) = some [1, 1] ∧
    ¬ ([1, 1] : List OID).Nodup := by
  exact ⟨rfl, by decide⟩

/-- Claim C3 (amended): `add` skips exactly the items whose identifier is
already present in the cell list at the start of the call; hence for
every sequence of `add` calls in which no single call repeats an
identifier among its own arguments, the resulting cell count equals the
number of distinct identifiers ever added and cell identifiers remain
unique. -/
theorem C3_add_distinct_count (meta : Meta) (calls : List (List MItem))
    (idss : List (List OID))
    (h : List.Forall₂ (fun c ids => callIds meta c = some ids ∧ ids.Nodup)
      calls idss) :
    ∃ fin, addCalls meta [] calls = some fin ∧
      (fin.map Cell.pk).Nodup ∧
      (fin.map Cell.pk).toFinset = idss.flatten.toFinset ∧
      managerCount fin = idss.flatten.toFinset.card := by
  obtain ⟨fin, h1, h2, h3⟩ := addCalls_invariant meta calls idss [] h (by simp)
  have hset : (fin.map Cell.pk).toFinset = idss.flatten.toFinset := by
    ext o
    simpa [List.mem_toFinset] using h3 o
  refine ⟨fin, h1, h2, hset, ?_⟩
  have : (fin.map Cell.pk).toFinset.card = (fin.map Cell.pk).length :=
    List.toFinset_card_of_nodup h2
  rw [← hset, this]
  simp [managerCount]

/-- Claim C3 witness: the amended statement at two concrete calls that
overlap across calls but not within a call. -/
theorem C3_witness :
    ∃ fin, addCalls metaA [] [[MItem.ref 1], [MItem.ref 1, MItem.ref 2]] =
        some fin ∧
      (fin.map Cell.pk).Nodup ∧
      (fin.map Cell.pk).toFinset = ([[1], [1, 2]] : List (List OID)).flatten.toFinset ∧
      managerCount fin = ([[1], [1, 2]] : List (List OID)).flatten.toFinset.card :=
  C3_add_distinct_count metaA [[MItem.ref 1], [MItem.ref 1, MItem.ref 2]]
    [[1], [1, 2]]
    (.cons ⟨rfl, by decide⟩ (.cons ⟨rfl, by decide⟩ .nil))

/-! ## Claim C9 -/

/-- Claim C9: removing an item whose identifier is absent from the cell
list leaves the list unchanged while still firing `pre_remove` and
`post_remove`, both with an empty `pk_set` - requested-but-absent
identifiers never enter the signal payload. -/
theorem C9_remove_nonmember (meta : Meta) (st : List Cell) (item : MItem)
    (pk : OID) (io : Option TDoc)
    (hres : itemPkObj meta item = some (pk, io))
    (habs : pk ∉ st.map Cell.pk) :
    removeOp meta st [item] = some
      (st, [{ action := .preRemove, pkSet := [], objectsAtSend := st },
            { action := .postRemove, pkSet := [], objectsAtSend := st }]) := by
  have hmapM : [item].mapM (itemPkObj meta) = some [(pk, io)] := by
    simp only [List.mapM_cons, List.mapM_nil, hres]
    rfl
  have hfilter : st.filter (fun c => decide (c.pk ∈ ([(pk, io)].map
      (fun p => p.1)))) = [] := by
    refine List.filter_eq_nil_iff.mpr ?_
    intro c hc
    simp only [List.map_cons, List.map_nil, List.mem_singleton,
      decide_eq_true_eq]
    intro heq
    exact habs (heq ▸ List.mem_map_of_mem Cell.pk hc)
  unfold removeOp
  rw [hmapM]
  simp only [Option.map_some']
  unfold removeByIdStrings
  rw [hfilter]
  simp

/-- Claim C9 witness: removing id 1 from a manager holding only id 2. -/
theorem C9_witness :
    removeOp metaA [{ pk := 2, obj := none }] [MItem.ref 1] = some
      ([{ pk := 2, obj := none }],
       [{ action := .preRemove, pkSet := [],
          objectsAtSend := [{ pk := 2, obj := none }] },
        { action := .postRemove, pkSet := [],
          objectsAtSend := [{ pk := 2, obj := none }] }]) :=
  C9_remove_nonmember metaA [{ pk := 2, obj := none }] (MItem.ref 1) 1 none
    rfl (by decide)

/-! ## Claim C4 -/

/-- Test for a bare identifier element (what claim C4 expects
embed-disabled encoding to produce). -/
def isBareId : Stored → Bool
  | .oid _ => true
  | _ => false

/-- Claim C4 counterexample: with embedding disabled, the encoder emits
`{pk_column: id}` - a one-entry field map - for a cell, not a bare
identifier. -/
theorem C4_counterexample :
    getDbPrepValueEmbeddedInstance false metaA [] { pk := 7, obj := none } =
      some (.map [("id", Value.oid 7)]) ∧
    (getDbPrepValueEmbeddedInstance false metaA []
      { pk := 7, obj := none }).map isBareId = some false := by
  exact ⟨rfl, rfl⟩

theorem getDbPrepValue_embed_total (meta : Meta) (db : DB) :
    ∀ cells : List Cell, (∀ c ∈ cells, (resolveForStore db c).isSome) →
      ∃ outs, getDbPrepValue true meta db cells = some outs ∧
        List.Forall₂ (fun c s => ∃ d, resolveForStore db c = some d ∧
          s = embedFields meta d) cells outs := by
  intro cells
  induction cells with
  | nil => exact fun _ => ⟨[], rfl, .nil⟩
  | cons c cs ih =>
    intro hall
    obtain ⟨d, hd⟩ := Option.isSome_iff_exists.mp (hall c (by simp))
    obtain ⟨outs, ho, hf⟩ := ih (fun x hx => hall x (by simp [hx]))
    refine ⟨embedFields meta d :: outs, ?_, .cons ⟨d, hd, rfl⟩ hf⟩
    have hhead : getDbPrepValueEmbeddedInstance true meta db c =
        some (embedFields meta d) := by
      simp [getDbPrepValueEmbeddedInstance, hd]
    simp only [getDbPrepValue, List.mapM_cons, hhead] at ho ⊢
    rw [ho]
    rfl

/-- Claim C4 (amended): encode-for-storage produces, for an
embed-disabled relationship, one single-entry field map
`{pk_column: identifier}` per cell (identifier-only, never the target's
other fields, but wrapped in a map rather than stored bare); for an
embed-enabled relationship it produces, per cell, the full field set of
the cached or freshly loaded target document. -/
theorem C4_encode (meta : Meta) (db : DB) (cells : List Cell) :
    getDbPrepValue false meta db cells =
      some (cells.map (fun c =>
        Stored.map [(meta.pkField.column, Value.oid c.pk)])) ∧
    ((∀ c ∈ cells, (resolveForStore db c).isSome) →
      ∃ outs, getDbPrepValue true meta db cells = some outs ∧
        List.Forall₂ (fun c s => ∃ d, resolveForStore db c = some d ∧
          s = embedFields meta d) cells outs) := by
  constructor
  · induction cells with
    | nil => rfl
    | cons c cs ih =>
      have hc : getDbPrepValueEmbeddedInstance false meta db c =
          some (Stored.map [(meta.pkField.column, Value.oid c.pk)]) := rfl
      simp only [getDbPrepValue, List.mapM_cons, hc, List.map_cons] at ih ⊢
      rw [ih]
      rfl
  · exact getDbPrepValue_embed_total meta db cells

/-- Claim C4 witness: the embed-enabled conjunct at a manager holding
one cached and one uncached cell, the uncached one resolvable from
storage. -/
theorem C4_witness :
    ∃ outs, getDbPrepValue true metaA [(2, dY)]
        [{ pk := 1, obj := some dX }, { pk := 2, obj := none }] = some outs ∧
      List.Forall₂ (fun c s => ∃ d, resolveForStore [(2, dY)] c = some d ∧
          s = embedFields metaA d)
        [{ pk := 1, obj := some dX }, { pk := 2, obj := none }] outs :=
  (C4_encode metaA [(2, dY)]
    [{ pk := 1, obj := some dX }, { pk := 2, obj := none }]).2 (by decide)

/-! ## Claim C5 -/

/-- Claim C5 counterexample: `filter` mutates the emulator it is called
on - after filtering, the original emulator's own cell sequence has been
narrowed in place (`self.objects` is reassigned before `_clone`), so it
is not an unchanged snapshot. -/
theorem C5_counterexample :
    (qsFilter [(1, dX)] (fun _ => true)
        (initQSet [(1, dX)] [{ pk := 1, obj := none }, { pk := 2, obj := none }]
          true false)).1.objects ≠
      (initQSet [(1, dX)] [{ pk := 1, obj := none }, { pk := 2, obj := none }]
        true false).objects := by
  decide

/-- Claim C5 (amended): `filter` produces a new emulator holding the
narrowed result, but it also narrows the calling emulator's own cell
sequence in place to the matching ids (copy-on-write holds for cloning
but not for `filter`); cloning re-runs the constructor on a copy of the
receiver's cells and, in cached non-existence-filtered mode, preserves
the cell sequence unchanged. -/
theorem C5_filter_narrows_receiver (db : DB) (pred : TDoc → Bool)
    (qs : QSet) (hc : qs.useCached = true) (he : qs.existsOnly = false) :
    (qsFilter db pred qs).1.objects =
      qs.objects.filter (fun c => decide (c.pk ∈
        (db.filter (fun p =>
          decide (p.1 ∈ qs.objects.map Cell.pk) && pred p.2)).map
            (fun p => p.1))) ∧
    (qsFilter db pred qs).2.objects = (qsFilter db pred qs).1.objects ∧
    (qsClone db qs).objects = qs.objects := by
  refine ⟨rfl, ?_, ?_⟩
  · simp [qsFilter, qsClone, initQSet, hc, he]
  · simp [qsClone, initQSet, hc, he]

/-- Claim C5 witness: the amended statement at a concrete emulator of
two cells over a store holding only the first target. -/
theorem C5_witness :
    (qsFilter [(1, dX)] (fun _ => true)
        ({ objects := [{ pk := 1, obj := none }, { pk := 2, obj := none }],
           useCached := true, existsOnly := false } : QSet)).1.objects =
      ([{ pk := 1, obj := none }, { pk := 2, obj := none }] : List Cell).filter
        (fun c => decide (c.pk ∈
          (([(1, dX)] : DB).filter (fun p =>
            decide (p.1 ∈ ([{ pk := 1, obj := none },
              { pk := 2, obj := none }] : List Cell).map Cell.pk) &&
            (fun _ => true) p.2)).map (fun p => p.1))) ∧
    (qsFilter [(1, dX)] (fun _ => true)
        ({ objects := [{ pk := 1, obj := none }, { pk := 2, obj := none }],
           useCached := true, existsOnly := false } : QSet)).2.objects =
      (qsFilter [(1, dX)] (fun _ => true)
        ({ objects := [{ pk := 1, obj := none }, { pk := 2, obj := none }],
           useCached := true, existsOnly := false } : QSet)).1.objects ∧
    (qsClone [(1, dX)]
        ({ objects := [{ pk := 1, obj := none }, { pk := 2, obj := none }],
           useCached := true, existsOnly := false } : QSet)).objects =
      ({ objects := [{ pk := 1, obj := none }, { pk := 2, obj := none }],
         useCached := true, existsOnly := false } : QSet).objects :=
  C5_filter_narrows_receiver [(1, dX)] (fun _ => true)
    { objects := [{ pk := 1, obj := none }, { pk := 2, obj := none }],
      useCached := true, existsOnly := false } rfl rfl

/-! ## Claim C6 -/

/-- Claim C6: with embedding, a manager caching cells for X and Y where
X's document was deleted externally: `all()` in cached mode still yields
both X and Y; `all(use_cached=False)` first resets every cell to
identifier-only and then yields only Y, because resolution skips
identifiers whose target no longer exists. -/
theorem C6_cached_vs_fresh (db : DB) (x y : OID) (X Y : TDoc)
    (hx : dbGet db x = none) (hy : dbGet db y = some Y) :
    qsIter db (managerAll db
      [{ pk := x, obj := some X }, { pk := y, obj := some Y }] true) = [X, Y] ∧
    (managerAll db
      [{ pk := x, obj := some X }, { pk := y, obj := some Y }] false).objects =
        [{ pk := x, obj := none }, { pk := y, obj := none }] ∧
    qsIter db (managerAll db
      [{ pk := x, obj := some X }, { pk := y, obj := some Y }] false) = [Y] := by
    refine ⟨?_, ?_, ?_⟩ <;>
      simp [managerAll, initQSet, qsIter, resolveCell, hx, hy]

/-- Claim C6 witness: documents X (id 1, deleted from storage) and Y
(id 2, still stored). -/
theorem C6_witness :
    qsIter [(2, dY)] (managerAll [(2, dY)]
      [{ pk := 1, obj := some dX }, { pk := 2, obj := some dY }] true) =
        [dX, dY] ∧
    (managerAll [(2, dY)]
      [{ pk := 1, obj := some dX }, { pk := 2, obj := some dY }] false).objects =
        [{ pk := 1, obj := none }, { pk := 2, obj := none }] ∧
    qsIter [(2, dY)] (managerAll [(2, dY)]
      [{ pk := 1, obj := some dX }, { pk := 2, obj := some dY }] false) =
        [dY] :=
  C6_cached_vs_fresh [(2, dY)] 1 2 dX dY rfl rfl

/-! ## Claim C10 -/

theorem length_filterMap_lt {α β : Type} (f : α → Option β) {l : List α}
    {a : α} (ha : a ∈ l) (hf : f a = none) :
    (l.filterMap f).length < l.length := by
  induction l with
  | nil => cases ha
  | cons b t ih =>
    rcases List.mem_cons.mp ha with rfl | hat
    · simp only [List.filterMap_cons, hf]
      exact Nat.lt_succ_of_le (List.length_filterMap_le f t)
    · cases hfb : f b with
      | none =>
        simp only [List.filterMap_cons, hfb]
        exact Nat.lt_succ_of_lt (ih hat)
      | some v =>
        simp only [List.filterMap_cons, hfb, List.length_cons]
        exact Nat.succ_lt_succ (ih hat)

/-- Claim C10 counterexample: a cell whose target no longer exists in
storage but which still carries a cached copy is yielded by iteration,
so the reported length (1) does not strictly exceed the iteration yield
(1) even though the cell references a deleted target. -/
theorem C10_counterexample :
    qsLen { objects := [{ pk := 1, obj := some dX }], useCached := true,
            existsOnly := false } = 1 ∧
    dbGet [] 1 = none ∧
    (qsIter [] { objects := [{ pk := 1, obj := some dX }], useCached := true,
                 existsOnly := false }).length = 1 := by
  exact ⟨rfl, rfl, rfl⟩

/-- Claim C10 (amended): `count()` and `__len__` on the manager and the
emulator return the number of Reference Cells without resolving any of
them; when some cell is unresolvable - no cached object and its target
gone from storage (in particular, any dangling reference in
fresh-load mode) - the reported length strictly exceeds what iteration
yields, since iteration skips only unresolvable cells. -/
theorem C10_count_unresolved (db : DB) (qs : QSet) (c : Cell)
    (hc : c ∈ qs.objects) (hobj : c.obj = none)
    (hdb : dbGet db c.pk = none) :
    qsLen qs = qs.objects.length ∧ qsCount qs = qs.objects.length ∧
    managerCount qs.objects = qs.objects.length ∧
    (qsIter db qs).length < qsLen qs := by
  refine ⟨rfl, rfl, rfl, ?_⟩
  unfold qsIter qsLen
  exact length_filterMap_lt _ hc (by simp [resolveCell, hobj, hdb])

/-- A two-cell emulator whose second cell is uncached and dangling in a
store holding only the first target. -/
def qsWitC10 : QSet :=
  { objects := [{ pk := 1, obj := some dX }, { pk := 3, obj := none }],
    useCached := true, existsOnly := false }

/-- Claim C10 witness: on `qsWitC10`, length 2 but iteration yields 1. -/
theorem C10_witness :
    qsLen qsWitC10 = qsWitC10.objects.length ∧
    qsCount qsWitC10 = qsWitC10.objects.length ∧
    managerCount qsWitC10.objects = qsWitC10.objects.length ∧
    (qsIter [(1, dX)] qsWitC10).length < qsLen qsWitC10 :=
  C10_count_unresolved [(1, dX)] qsWitC10
    { pk := 3, obj := none } (by decide) rfl rfl

/-! ## Claim C8 -/

/-- Claim C8 counterexample: a forward composite token whose host exists
but whose target id matches no relationship cell makes the emulator's
`get` return `None` (`MongoDBM2MQuerySet.get` is a linear scan that
returns rather than raises), not a does-not-exist error. -/
theorem C8_counterexample :
    throughGet [{ pk := 1, cells := [] }] [] 1 "f" 2 = .ok none ∧
    (Except.ok none : Except GetErr (Option ThroughRow)) ≠
      .error .doesNotExist := by
  exact ⟨rfl, fun h => Except.noConfusion h⟩

/-- Claim C8 (amended): `get` on a composite token
`"<id>$<dir>$<id>"` splits it and dispatches to forward resolution for
direction `f` and reverse resolution for `r`; a host (forward) or target
(reverse) id that does not exist in its collection raises the
framework's own does-not-exist error, but a trailing id with no matching
relationship cell yields `None` rather than raising; a valid forward
token returns a synthetic relationship row whose target attribute is the
(cached or freshly loaded) live target document. -/
theorem C8_through_get (hosts : List HostDoc) (db : DB) (l r : OID) :
    (hostGet hosts l = none →
      throughGet hosts db l "f" r = .error .doesNotExist) ∧
    (∀ h, hostGet hosts l = some h →
      h.cells.find? (fun c => c.pk == r) = none →
      throughGet hosts db l "f" r = .ok none) ∧
    (∀ h c, hostGet hosts l = some h →
      h.cells.find? (fun c => c.pk == r) = some c →
      ((∀ T, c.obj = some T →
        throughGet hosts db l "f" r =
          .ok (some (.fwd h.pk c.pk h (some T)))) ∧
       (∀ T, c.obj = none → dbGet db c.pk = some T →
        throughGet hosts db l "f" r =
          .ok (some (.fwd h.pk c.pk h (some T)))))) ∧
    (dbGet db l = none →
      throughGet hosts db l "r" r = .error .doesNotExist) ∧
    (∀ T hh, dbGet db l = some T →
      (hosts.filter (fun h2 => decide (l ∈ h2.cells.map Cell.pk))).find?
          (fun h2 => h2.pk == r) = some hh →
      throughGet hosts db l "r" r = .ok (some (.rev l hh.pk (some hh) T))) := by
  have hfr : (("f" : String) == "r") = false := by decide
  have hrr : (("r" : String) == "r") = true := by decide
  refine ⟨?_, ?_, ?_, ?_, ?_⟩
  · intro hnone
    simp [throughGet, hfr, hnone]
  · intro h hh hfind
    simp [throughGet, hfr, hh, hfind]
  · intro h c hh hfind
    constructor
    · intro T hobj
      simp [throughGet, hfr, hh, hfind, resolveCell, hobj]
    · intro T hobj hT
      simp [throughGet, hfr, hh, hfind, resolveCell, hobj, hT]
  · intro hnone
    simp [throughGet, hrr, hnone]
  · intro T hh hT hfind
    simp at hfind
    simp [throughGet, hrr, hT, hfind]

/-- Claim C8 witness: a forward token over one host (id 1) whose cell
list references target 2, with target 2 live in storage. -/
theorem C8_witness :
    throughGet [{ pk := 1, cells := [{ pk := 2, obj := none }] }]
        [(2, dY)] 1 "f" 2 =
      .ok (some (.fwd 1 2 { pk := 1, cells := [{ pk := 2, obj := none }] }
        (some dY))) :=
  ((C8_through_get [{ pk := 1, cells := [{ pk := 2, obj := none }] }]
      [(2, dY)] 1 2).2.2.1
    { pk := 1, cells := [{ pk := 2, obj := none }] }
    { pk := 2, obj := none } rfl rfl).2 dY rfl rfl

/-! ## Claim C7 -/

/-- Claim C7 (code bug): on a non-embedding field, a flat non-`pk`
keyword predicate does raise the dedicated query error carrying the
offending arguments, and a `pk` predicate is rewritten to the
embedded-document form `Q(column=A("id", ObjectId(id)))` with the string
id coerced - but a non-`pk` predicate nested one `Q` deep is silently
accepted: `replace_Q` discards the recursive call's status and drops the
offending leaf, so the query runs with the predicate removed (an empty
nested `Q`, matching everything) instead of raising. -/
theorem C7_nested_q_bypass :
    filterOrExclude false "categories" false
        [FArg.q (QExpr.node [QExpr.node
          [QExpr.cond "name" (AArg.val (PVal.other "foo"))]])] [] =
      some (.ok (false, [OutArg.qArg (QExpr.node [QExpr.node []])])) ∧
    filterOrExclude false "categories" false []
        [("name", AArg.val (PVal.other "foo"))] =
      some (.error { args := [],
                     kwargs := [("name", AArg.val (PVal.other "foo"))] }) ∧
    filterOrExclude false "categories" false []
        [("pk", AArg.val (PVal.strId 9))] =
      some (.ok (false, [OutArg.qArg (QExpr.node
        [QExpr.cond "categories" (AArg.a "id" (PVal.oid 9))])])) := by
  refine ⟨?_, rfl, rfl⟩
  simp only [filterOrExclude, processArgs, replaceQ, replaceQList, combineA]
  rfl

end MongoM2M
